import Mathlib

/-!
Verification development for the ESIL emulator driver (src/main.py).

The driver (class `Emulator`) intercepts calls to relocated external symbols,
marshals cdecl arguments from the simulated stack, invokes registered stubs,
applies their results to machine state, and synthesizes a native return.

The external radare2 engine (r2pipe) is an out-of-scope collaborator: its
register file is modelled as text contents (hex strings in/out, per the spec's
engine boundary), its memory as a byte function `Nat -> Nat` (reads truncate
to a byte), and its single-step / disassembly commands as parameters of an
`Engine` structure.  The supporting classes imported by `main.py`
(`classes.py`, `api.py`, `api_classes.py`, `utilities.py`) are not part of the
sources; their definitions below are modelled from the spec and carry a doc
comment saying so.
-/

/-- Hexadecimal digit character for a value below 16 (lowercase, as produced
by the engine and by Python's `bytes.hex`). -/
def hexChar (d : Nat) : Char :=
  if d < 10 then Char.ofNat (48 + d) else Char.ofNat (87 + d)

/-- Value of a hexadecimal digit character, `none` for non-digits. -/
def hexDigitVal (c : Char) : Option Nat :=
  let n := c.toNat
  if 48 ≤ n ∧ n ≤ 57 then some (n - 48)
  else if 97 ≤ n ∧ n ≤ 102 then some (n - 87)
  else if 65 ≤ n ∧ n ≤ 70 then some (n - 55)
  else none

/-- Value of a decimal digit character, `none` for non-digits. -/
def decDigitVal (c : Char) : Option Nat :=
  let n := c.toNat
  if 48 ≤ n ∧ n ≤ 57 then some (n - 48) else none

/-- Hexadecimal digit list of a natural number, most significant first,
with an explicit fuel bound so the definition is structurally recursive. -/
def natToHexAux : Nat → Nat → List Char
  | 0, _ => []
  | fuel + 1, n =>
    if n = 0 then [] else natToHexAux fuel (n / 16) ++ [hexChar (n % 16)]

/-- Hexadecimal digit list of a natural number, most significant first;
empty for zero (the number itself bounds its digit count). -/
def natToHexList (n : Nat) : List Char :=
  natToHexAux n n

/-- Left-pad a digit list with zeros to eight characters. -/
def pad8 (l : List Char) : List Char :=
  List.replicate (8 - l.length) '0' ++ l

/-- Render a value the way the engine prints a 32-bit register or word:
`0x` followed by eight lowercase hex digits of the value modulo 2^32. -/
def hexText32 (n : Nat) : String :=
  String.mk ('0' :: 'x' :: pad8 (natToHexList (n % 4294967296)))

/-- Accumulating hexadecimal parser over a character list; `none` on the
first non-digit. -/
def parseHexAux : List Char → Nat → Option Nat
  | [], acc => some acc
  | c :: cs, acc =>
    match hexDigitVal c with
    | some d => parseHexAux cs (16 * acc + d)
    | none => none

/-- Parse a non-empty hexadecimal digit list. -/
def parseHexChars (cs : List Char) : Option Nat :=
  if cs.isEmpty then none else parseHexAux cs 0

/-- Accumulating decimal parser over a character list. -/
def parseDecAux : List Char → Nat → Option Nat
  | [], acc => some acc
  | c :: cs, acc =>
    match decDigitVal c with
    | some d => parseDecAux cs (10 * acc + d)
    | none => none

/-- Parse a non-empty decimal digit list. -/
def parseDecChars (cs : List Char) : Option Nat :=
  if cs.isEmpty then none else parseDecAux cs 0

/-- Model of Python's `int(s, 16)` on the texts the driver feeds it: an
optional `0x`/`0X` prefix followed by hexadecimal digits; failure is the
`ValueError` the spec classifies as MalformedOperand. -/
def hexToNat? (s : String) : Option Nat :=
  match s.toList with
  | '0' :: 'x' :: rest => parseHexChars rest
  | '0' :: 'X' :: rest => parseHexChars rest
  | l => parseHexChars l

/-- Modelled from the spec: the engine's numeric parser for command operands
(`0x` prefix means hexadecimal, otherwise decimal). -/
def r2NumParse? (s : String) : Option Nat :=
  match s.toList with
  | '0' :: 'x' :: rest => parseHexChars rest
  | '0' :: 'X' :: rest => parseHexChars rest
  | l => parseDecChars l

/-- Two lowercase hex digits per byte, as Python's `bytes.hex` produces. -/
def bytesToHexList (b : List Nat) : List Char :=
  b.flatMap (fun x => [hexChar (x % 256 / 16), hexChar (x % 256 % 16)])

/-- Python `bytes.hex`: the hexadecimal encoding of a byte string. -/
def bytesToHex (b : List Nat) : String :=
  String.mk (bytesToHexList b)

/-- Decode a list of hex-digit pairs into bytes, as the engine's `wx`
command does; `none` on an odd count or a non-digit. -/
def hexPairsDecode : List Char → Option (List Nat)
  | [] => some []
  | c1 :: c2 :: rest =>
    match hexDigitVal c1, hexDigitVal c2, hexPairsDecode rest with
    | some d1, some d2, some bs => some ((16 * d1 + d2) :: bs)
    | _, _, _ => none
  | [_] => none

/-- Little-endian 4-byte read from byte memory (each cell truncated to a
byte, as engine memory holds bytes). -/
def read4 (mem : Nat → Nat) (a : Nat) : Nat :=
  mem a % 256 + 256 * (mem (a + 1) % 256) + 65536 * (mem (a + 2) % 256) +
    16777216 * (mem (a + 3) % 256)

/-- Write a list of bytes into byte memory at consecutive addresses. -/
def writeList (mem : Nat → Nat) (a : Nat) : List Nat → (Nat → Nat)
  | [] => mem
  | b :: bs => writeList (fun x => if x = a then b else mem x) (a + 1) bs

/-- Modelled from the spec: the engine's `ps` read of a delimited string —
bytes from the address up to the first zero byte (bounded scan). -/
def readCStringAux (mem : Nat → Nat) : Nat → Nat → List Char
  | _, 0 => []
  | a, fuel + 1 =>
    if mem a % 256 = 0 then []
    else Char.ofNat (mem a % 256) :: readCStringAux mem (a + 1) fuel

/-- Argument/result value types declared by stubs.  Modelled from the spec:
`api_classes.py` is not in the sources; the spec's data model gives the enum
NUMBER, STRING, BYTES. -/
inductive ValueType where
  | NUMBER
  | STRING
  | BYTES
deriving DecidableEq, Repr

/-- Modelled from the spec: the printed name of a type constant, used only
in console trace lines. -/
def ValueType.pyName : ValueType → String
  | .NUMBER => "NUMBER"
  | .STRING => "STRING"
  | .BYTES => "BYTES"

/-- Dynamically typed values flowing through arguments and results
(Python ints, strings and byte strings). -/
inductive Value where
  | num (n : Nat)
  | str (s : String)
  | bytes (b : List Nat)
deriving DecidableEq, Repr

/-- Python `len` on a value: defined for strings and byte strings, a
`TypeError` (modelled as `none`) for numbers. -/
def Value.size? : Value → Option Nat
  | .num _ => none
  | .str t => some t.length
  | .bytes b => some b.length

/-- Console rendering of a value in trace lines (numbers print in decimal,
strings verbatim; byte strings are shown by their hex encoding, a modelled
stand-in for Python's repr). -/
def Value.pyShow : Value → String
  | .num n => toString n
  | .str t => t
  | .bytes b => "b" ++ bytesToHex b

/-- Modelled from the spec: a Function Argument from `api_classes.py` —
name, declared type, and a value unset until filled. -/
structure FunctionArgument where
  name : String
  typed : ValueType
  value : Option Value
deriving DecidableEq, Repr

/-- Modelled from the spec: a Function Result from `api_classes.py` —
target (register name or memory address text), declared type, value, and the
to_reference flag requesting materialization in memory. -/
structure FunctionResult where
  target : String
  typed : ValueType
  value : Value
  to_reference : Bool
deriving DecidableEq, Repr

/-- Errors of the run, from the spec's error taxonomy. -/
inductive EmuError where
  | outOfMemory
  | malformedOperand
  | typeError
deriving DecidableEq, Repr

/-- Modelled from the spec: the Memory Stack from `classes.py` — a bump
allocator over `[address, address + size)` with a monotone cursor (the
`address` and `size` attribute names appear in `main.py`'s `aeim` command). -/
structure MemoryStack where
  address : Nat
  size : Nat
  cursor : Nat
deriving DecidableEq, Repr

/-- Modelled from the spec: `allocate(size) -> address` — returns
`base_address + cursor_before`, advances the cursor by the requested size,
and fails with OutOfMemory when the region would be exceeded. -/
def MemoryStack.malloc (m : MemoryStack) (sz : Nat) :
    Except EmuError (Nat × MemoryStack) :=
  if m.cursor + sz ≤ m.size then
    .ok (m.address + m.cursor, { m with cursor := m.cursor + sz })
  else
    .error .outOfMemory

/-- Iterate `malloc` over a list of sizes, collecting the returned
addresses (the claim's &quot;sequence of allocate calls&quot;). -/
def MemoryStack.allocSeq (m : MemoryStack) :
    List Nat → Except EmuError (List Nat × MemoryStack)
  | [] => .ok ([], m)
  | sz :: rest =>
    match m.malloc sz with
    | .error e => .error e
    | .ok (a, m1) =>
      match m1.allocSeq rest with
      | .error e => .error e
      | .ok (as_, m2) => .ok (a :: as_, m2)

/-- Modelled from the spec: an Instruction view from `classes.py` — address,
lowercased mnemonic, and raw disassembly text (`main.py` reads the
`address`, `asm` attributes and calls `get_operation`). -/
structure Instruction where
  address : Nat
  operation : String
  asm : String
deriving DecidableEq, Repr

/-- Modelled from the spec: accessor for the lowercased mnemonic. -/
def Instruction.get_operation (i : Instruction) : String :=
  i.operation

/-- Modelled from the spec: the Relocation Table from `classes.py` — an
immutable list of (virtual address, symbol name) pairs with exact-match
lookup. -/
structure RelocationTable where
  entries : List (Nat × String)
deriving DecidableEq, Repr

/-- Modelled from the spec: exact-match membership of a virtual address. -/
def RelocationTable.contains_vaddr (t : RelocationTable) (a : Nat) : Bool :=
  t.entries.any (fun e => e.1 == a)

/-- Modelled from the spec: the symbol name of the relocation at an address
(the composition `get_relocation(address).get_function_name()`). -/
def RelocationTable.get_function_name (t : RelocationTable) (a : Nat) : String :=
  ((t.entries.find? (fun e => e.1 == a)).map Prod.snd).getD ""

/-- Modelled from the spec: the Function Stub Registry from `api.py` — a
pure lookup and dispatch table holding no machine state. -/
structure Api where
  contains_function : String → Bool
  get_function_arguments : String → List FunctionArgument
  emulate_function : String → List FunctionArgument → List FunctionResult

/-- Modelled from the spec: `is_address` from `utilities.py` — whether a
result target denotes a memory address (numeric text) rather than a
register name. -/
def is_address (s : String) : Bool :=
  match s.toList with
  | '0' :: 'x' :: _ => true
  | l => !l.isEmpty && l.all (fun c => c.isDigit)

/-- Simulated machine state at the engine boundary: register file as text
contents, byte memory, the driver's Memory Stack, and accumulated console
output. -/
structure MachineState where
  regs : String → String
  mem : Nat → Nat
  memStack : MemoryStack
  out : List String

/-- Point update of the register file. -/
def updateReg (regs : String → String) (r v : String) : String → String :=
  fun x => if x = r then v else regs x

/-- Append one console line. -/
def MachineState.print (s : MachineState) (line : String) : MachineState :=
  { s with out := s.out ++ [line] }

/-- The out-of-scope execution engine: single-step (`aes`) and one-line
disassembly (`pdj 1`), as the spec's collaborator boundary. -/
structure Engine where
  aes : MachineState → MachineState
  disasm : Nat → Instruction

/-- Driver state: the machine, the current instruction view, and the entry
function's recorded last instruction (the termination sentinel). -/
structure EmuState where
  machine : MachineState
  instr : Instruction
  lastInstr : Instruction

namespace Emulator

/-- The text `__set_register` sends for a value: byte strings are first
hex-encoded (`value.hex()`), other values go through the f-string — numbers
as decimal text, strings verbatim. -/
def set_register_text : Value → String
  | .bytes b => bytesToHex b
  | .num n => toString n
  | .str t => t

/-- Driver `__set_register`: store the formatted text as the register's
content (`aer reg=value`). -/
def set_register (r : String) (v : Value) (s : MachineState) : MachineState :=
  { s with regs := updateReg s.regs r (set_register_text v) }

/-- Driver `__write_bytes`: hex-encode byte strings, then have the engine's
`wx` decode the text as hex-digit pairs and store them at the address; an
undecodable text leaves memory unchanged (rejected engine command). -/
def write_bytes (v : Value) (address : Nat) (mem : Nat → Nat) : Nat → Nat :=
  match hexPairsDecode (set_register_text v).toList with
  | some bs => writeList mem address bs
  | none => mem

/-- Driver `__get_value_from_address`: the engine's `pf x` rendering of the
little-endian 4-byte word at the address, as `0x`-prefixed hex text. -/
def get_value_from_address (mem : Nat → Nat) (address : Nat) : String :=
  hexText32 (read4 mem address)

/-- Driver `__get_string_from_address`: the engine's `ps` string at the
address, stripped like the Python code does. -/
def get_string_from_address (mem : Nat → Nat) (address : Nat) : String :=
  (String.mk (readCStringAux mem address 65536)).trim

/-- Driver `__execute_return`: the engine runs the ESIL program
`esp,[4],eip,=,4,esp,+=` — load the 4 bytes at the top of the simulated
stack into the program counter and advance the stack pointer by 4 (32-bit
registers, written back as hex text); the subsequent `aepc eip` resynchronizes
the engine's internal program counter with `eip` and has no separate effect
in this model. -/
def execute_return (s : MachineState) : MachineState :=
  let esp := (hexToNat? (s.regs "esp")).getD 0
  let ret := read4 s.mem esp
  let regs2 := updateReg (updateReg s.regs "eip" (hexText32 ret)) "esp"
    (hexText32 (esp + 4))
  { s with regs := regs2 }

/-- Loop body of `__fill_function_arguments`, carrying the running index:
read the raw word text at `esp + 4 + 4*i`, then coerce it by the declared
type — STRING dereferences the read text and loads the string there, NUMBER
parses the text as a hexadecimal integer, BYTES keeps the raw text. -/
def fill_args_from (s : MachineState) (esp : Nat) :
    Nat → List FunctionArgument → Except EmuError (List FunctionArgument)
  | _, [] => .ok []
  | i, arg :: rest =>
    let address := esp + 4 + 4 * i
    let raw := get_value_from_address s.mem address
    let valueE : Except EmuError Value :=
      match arg.typed with
      | .STRING =>
        match hexToNat? raw with
        | some a => .ok (.str (get_string_from_address s.mem a))
        | none => .error .malformedOperand
      | .NUMBER =>
        match hexToNat? raw with
        | some n => .ok (.num n)
        | none => .error .malformedOperand
      | .BYTES => .ok (.str raw)
    match valueE with
    | .error e => .error e
    | .ok value =>
      match fill_args_from s esp (i + 1) rest with
      | .error e => .error e
      | .ok rest2 => .ok ({ arg with value := some value } :: rest2)

/-- Driver `__fill_function_arguments`: parse the stack pointer from the
`esp` register text and fill each declared argument from its stack slot. -/
def fill_function_arguments (s : MachineState)
    (arguments : List FunctionArgument) :
    Except EmuError (List FunctionArgument) :=
  match hexToNat? (s.regs "esp") with
  | none => .error .malformedOperand
  | some esp => fill_args_from s esp 0 arguments

/-- Console line for one filled argument. -/
def argLine (arg : FunctionArgument) : String :=
  "\t\t" ++ arg.name ++ " = " ++ ((arg.value.map Value.pyShow).getD "None") ++
    " (" ++ arg.typed.pyName ++ ")"

/-- Loop body of `__apply_function_results` for one Function Result: when
`to_reference` is set, a NUMBER value is passed to `malloc` as the size and
replaced by the returned address, a BYTES (or sized) value is materialized
by allocating `len(value)` bytes, writing the value there and replacing it
by the address, and any other case falls through with the value unchanged;
the reported type becomes "address".  Then the (possibly replaced) value is
written to the target: raw bytes at a memory address target, register text
otherwise. -/
def apply_result (s : MachineState) (result : FunctionResult) :
    Except EmuError MachineState :=
  let target := result.target
  let afterRef : Except EmuError (Value × MachineState × String) :=
    if result.to_reference then
      match result.typed with
      | .NUMBER =>
        match result.value with
        | .num n =>
          match s.memStack.malloc n with
          | .error e => .error e
          | .ok (addr, ms) =>
            .ok (.num addr, { s with memStack := ms }, "address")
        | _ => .error .typeError
      | .BYTES =>
        match result.value.size? with
        | none => .error .typeError
        | some sz =>
          match s.memStack.malloc sz with
          | .error e => .error e
          | .ok (addr, ms) =>
            let s1 := { s with memStack := ms }
            let s2 := { s1 with mem := write_bytes result.value addr s1.mem }
            .ok (.num addr, s2, "address")
      | .STRING => .ok (result.value, s, "address")
    else
      .ok (result.value, s, result.typed.pyName)
  match afterRef with
  | .error e => .error e
  | .ok (value, s3, typed) =>
    let s4 := s3.print ("\t\t" ++ target ++ " = " ++ value.pyShow ++ " (" ++
      typed ++ ")")
    if is_address target then
      match r2NumParse? target with
      | some a => .ok { s4 with mem := write_bytes value a s4.mem }
      | none => .ok s4
    else
      .ok (set_register target value s4)

/-- Driver `__apply_function_results`: print the results header and apply
each result in declared order. -/
def apply_function_results (results : List FunctionResult)
    (s : MachineState) : Except EmuError MachineState :=
  results.foldlM apply_result (s.print "\tresults:")

/-- Driver `__emulate_function`: announce the interception; when the
registry has the symbol, fill the declared arguments from the stack, trace
them, invoke the stub and apply its results; otherwise emit the
"function not defined" notice and change nothing else. -/
def emulate_function (api : Api) (function_name : String) (s : MachineState) :
    Except EmuError MachineState :=
  let s := s.print ("emulating function " ++ function_name ++ ":")
  if api.contains_function function_name then
    match fill_function_arguments s (api.get_function_arguments function_name)
      with
    | .error e => .error e
    | .ok arguments =>
      let s := s.print "\targuments:"
      let s := arguments.foldl (fun t arg => t.print (argLine arg)) s
      apply_function_results (api.emulate_function function_name arguments) s
  else
    .ok (s.print ("\tfunction " ++ function_name ++ " not defined"))

/-- Driver `__step`: when the current address is a relocation target,
intercept — emulate the symbol's stub, synthesize the return and trace the
return address; otherwise forward one `aes` step to the engine.  Either
way, trace a transfer line when the current instruction is a `call`. -/
def step (eng : Engine) (rel : RelocationTable) (api : Api) (es : EmuState) :
    Except EmuError EmuState :=
  let address := es.instr.address
  let machineE : Except EmuError MachineState :=
    if rel.contains_vaddr address then
      match emulate_function api (rel.get_function_name address) es.machine
        with
      | .error e => .error e
      | .ok m =>
        let m := execute_return m
        .ok (m.print ("\treturn to @" ++ m.regs "eip"))
    else
      .ok (eng.aes es.machine)
  match machineE with
  | .error e => .error e
  | .ok machine =>
    let machine :=
      if es.instr.get_operation == "call" then
        machine.print (es.instr.asm ++ ": from address @" ++
          toString es.instr.address ++ " to @" ++ machine.regs "eip")
      else machine
    .ok { es with machine := machine }

/-- Driver `__get_instruction`: refresh the instruction view by
disassembling at the current `eip`. -/
def get_instruction (eng : Engine) (m : MachineState) : Instruction :=
  eng.disasm ((hexToNat? (m.regs "eip")).getD 0)

/-- Driver `run`: step until the current instruction address equals the
recorded last instruction's address, refreshing the instruction view after
each step.  Fuel bounds the iteration; `none` covers both fuel exhaustion
and a fatal error (a propagated exception). -/
def run (eng : Engine) (rel : RelocationTable) (api : Api) :
    Nat → EmuState → Option EmuState
  | 0, _ => none
  | fuel + 1, es =>
    if es.instr.address = es.lastInstr.address then some es
    else
      match step eng rel api es with
      | .error _ => none
      | .ok es2 =>
        run eng rel api fuel
          { es2 with instr := get_instruction eng es2.machine }

end Emulator

/-! ## Concrete fixtures used by witnesses and counterexamples -/

/-- Byte memory holding a return address `0x00002010` at `0x1000` and the
little-endian word `0x04030201` at `0x1004` (the first cdecl slot), then
`0xff` at `0x1008` (the second slot). -/
def memA : Nat → Nat := fun a =>
  if a = 4096 then 16 else if a = 4097 then 32 else
  if a = 4100 then 1 else if a = 4101 then 2 else
  if a = 4102 then 3 else if a = 4103 then 4 else
  if a = 4104 then 255 else 0

/-- Like `memA` but with a different word in the first argument slot. -/
def memB : Nat → Nat := fun a =>
  if a = 4100 then 66 else 0

/-- Register file with the stack pointer at `0x1000`. -/
def regsA : String → String := fun r =>
  if r = "esp" then "0x00001000" else "0x00000000"

/-- Machine state over `memA` with a fresh 16-byte Memory Stack. -/
def machineA : MachineState :=
  { regs := regsA, mem := memA, memStack := ⟨1048576, 16, 0⟩, out := [] }

/-- Machine state over `memB`. -/
def machineB : MachineState :=
  { regs := regsA, mem := memB, memStack := ⟨1048576, 16, 0⟩, out := [] }

/-- Trivial engine: stepping is the identity, disassembly reports a `nop`. -/
def engA : Engine :=
  { aes := fun m => m, disasm := fun a => ⟨a, "nop", "nop"⟩ }

/-- One relocation: the symbol `foo` at address `0x2000`. -/
def relA : RelocationTable := ⟨[(8192, "foo")]⟩

/-- Registry that knows no symbol at all. -/
def apiNone : Api :=
  { contains_function := fun _ => false
    get_function_arguments := fun _ => []
    emulate_function := fun _ _ => [] }

/-- Driver state sitting on the relocation target `0x2000`, with the last
instruction recorded at `0x2330`. -/
def esA : EmuState :=
  { machine := machineA, instr := ⟨8192, "nop", "nop"⟩,
    lastInstr := ⟨9008, "ret", "ret"⟩ }

/-! ## Projection lemmas for machine-state operations -/

@[simp] theorem MachineState.print_regs (s : MachineState) (l : String) :
    (s.print l).regs = s.regs := rfl

@[simp] theorem MachineState.print_mem (s : MachineState) (l : String) :
    (s.print l).mem = s.mem := rfl

@[simp] theorem MachineState.print_memStack (s : MachineState) (l : String) :
    (s.print l).memStack = s.memStack := rfl

@[simp] theorem MachineState.print_out (s : MachineState) (l : String) :
    (s.print l).out = s.out ++ [l] := rfl

theorem updateReg_same (regs : String → String) (r v : String) :
    updateReg regs r v r = v := by
  unfold updateReg
  rw [if_pos rfl]

theorem updateReg_other (regs : String → String) (r v x : String)
    (h : x ≠ r) : updateReg regs r v x = regs x := by
  unfold updateReg
  rw [if_neg h]

/-! ## Round-trip lemmas for the hexadecimal text layer -/

theorem hexDigitVal_hexChar : ∀ d, d < 16 → hexDigitVal (hexChar d) = some d := by
  decide

theorem natToHexAux_zero (fuel : Nat) : natToHexAux fuel 0 = [] := by
  cases fuel with
  | zero => rfl
  | succ fuel => simp [natToHexAux]

theorem natToHexList_zero : natToHexList 0 = [] := rfl

theorem parseHexAux_append (l1 l2 : List Char) :
    ∀ acc, parseHexAux (l1 ++ l2) acc =
      match parseHexAux l1 acc with
      | some m => parseHexAux l2 m
      | none => none := by
  induction l1 with
  | nil => intro acc; rfl
  | cons c cs ih =>
    intro acc
    simp only [List.cons_append, parseHexAux]
    cases hexDigitVal c with
    | none => rfl
    | some d => exact ih (16 * acc + d)

theorem parseHexAux_natToHexAux :
    ∀ fuel n, n ≤ fuel → ∀ acc, parseHexAux (natToHexAux fuel n) acc =
      some (acc * 16 ^ (natToHexAux fuel n).length + n) := by
  intro fuel
  induction fuel with
  | zero =>
    intro n hn acc
    have : n = 0 := by omega
    subst this
    simp [natToHexAux, parseHexAux]
  | succ fuel ih =>
    intro n hn acc
    by_cases h : n = 0
    · subst h
      simp [natToHexAux, parseHexAux]
    · have hdivle : n / 16 ≤ fuel := by
        have : n / 16 < n := Nat.div_lt_self (Nat.pos_of_ne_zero h) (by decide)
        omega
      have hrec := ih (n / 16) hdivle acc
      simp only [natToHexAux, h, if_false]
      rw [parseHexAux_append]
      rw [hrec]
      simp only [parseHexAux, hexDigitVal_hexChar (n % 16) (Nat.mod_lt n (by decide)),
        List.length_append, List.length_singleton]
      congr 1
      calc 16 * (acc * 16 ^ (natToHexAux fuel (n / 16)).length + n / 16) + n % 16
          = acc * (16 ^ (natToHexAux fuel (n / 16)).length * 16) +
              (16 * (n / 16) + n % 16) := by ring
        _ = acc * 16 ^ ((natToHexAux fuel (n / 16)).length + 1) + n := by
              rw [Nat.div_add_mod, pow_succ]

theorem parseHexAux_natToHexList (n : Nat) :
    ∀ acc, parseHexAux (natToHexList n) acc =
      some (acc * 16 ^ (natToHexList n).length + n) :=
  fun acc => parseHexAux_natToHexAux n n le_rfl acc

theorem natToHexAux_length_le :
    ∀ fuel k n, n ≤ fuel → n < 16 ^ k → (natToHexAux fuel n).length ≤ k := by
  intro fuel
  induction fuel with
  | zero =>
    intro k n hn _
    have : n = 0 := by omega
    subst this
    simp [natToHexAux]
  | succ fuel ih =>
    intro k n hn hk
    by_cases h : n = 0
    · subst h
      simp [natToHexAux]
    · cases k with
      | zero =>
        simp at hk
        omega
      | succ k =>
        simp only [natToHexAux, h, if_false, List.length_append,
          List.length_singleton]
        have hdivle : n / 16 ≤ fuel := by
          have : n / 16 < n := Nat.div_lt_self (Nat.pos_of_ne_zero h) (by decide)
          omega
        have hdiv : n / 16 < 16 ^ k := by
          rw [Nat.div_lt_iff_lt_mul (by decide : 0 < 16)]
          calc n < 16 ^ (k + 1) := hk
            _ = 16 ^ k * 16 := by rw [pow_succ]
        have := ih k (n / 16) hdivle hdiv
        omega

theorem natToHexList_length_le : ∀ k n, n < 16 ^ k → (natToHexList n).length ≤ k :=
  fun k n h => natToHexAux_length_le n k n le_rfl h

theorem parseHexAux_replicate_zero :
    ∀ k, parseHexAux (List.replicate k '0') 0 = some 0 := by
  intro k
  induction k with
  | zero => rfl
  | succ k ih =>
    simp only [List.replicate_succ, parseHexAux]
    have h0 : hexDigitVal '0' = some 0 := by decide
    rw [h0]
    simpa using ih

theorem hexToNat?_hexText32 (n : Nat) :
    hexToNat? (hexText32 n) = some (n % 4294967296) := by
  have hlen : (natToHexList (n % 4294967296)).length ≤ 8 := by
    apply natToHexList_length_le 8
    have : n % 4294967296 < 4294967296 := Nat.mod_lt n (by decide)
    simpa using this
  show parseHexChars (pad8 (natToHexList (n % 4294967296))) = some (n % 4294967296)
  unfold parseHexChars pad8
  rw [if_neg]
  · rw [parseHexAux_append, parseHexAux_replicate_zero]
    show parseHexAux (natToHexList (n % 4294967296)) 0 = some (n % 4294967296)
    rw [parseHexAux_natToHexList]
    simp
  · intro hemp
    rw [List.isEmpty_iff] at hemp
    have hlen2 := congrArg List.length hemp
    simp only [List.length_append, List.length_replicate, List.length_nil]
      at hlen2
    omega

theorem read4_lt (mem : Nat → Nat) (a : Nat) : read4 mem a < 4294967296 := by
  unfold read4
  have h0 : mem a % 256 < 256 := Nat.mod_lt _ (by decide)
  have h1 : mem (a + 1) % 256 < 256 := Nat.mod_lt _ (by decide)
  have h2 : mem (a + 2) % 256 < 256 := Nat.mod_lt _ (by decide)
  have h3 : mem (a + 3) % 256 < 256 := Nat.mod_lt _ (by decide)
  omega

theorem hexToNat?_get_value_from_address (mem : Nat → Nat) (a : Nat) :
    hexToNat? (Emulator.get_value_from_address mem a) = some (read4 mem a) := by
  unfold Emulator.get_value_from_address
  rw [hexToNat?_hexText32, Nat.mod_eq_of_lt (read4_lt mem a)]

/-! ## Byte-memory write lemmas -/

theorem writeList_eq_of_outside :
    ∀ (bs : List Nat) (mem : Nat → Nat) (a x : Nat),
      (x < a ∨ a + bs.length ≤ x) → writeList mem a bs x = mem x := by
  intro bs
  induction bs with
  | nil => intro mem a x _; rfl
  | cons b bs ih =>
    intro mem a x hx
    simp only [List.length_cons] at hx
    show writeList (fun y => if y = a then b else mem y) (a + 1) bs x = mem x
    rw [ih _ (a + 1) x (by omega)]
    show (if x = a then b else mem x) = mem x
    rw [if_neg (by omega)]

theorem writeList_get :
    ∀ (bs : List Nat) (mem : Nat → Nat) (a i : Nat) (h : i < bs.length),
      writeList mem a bs (a + i) = bs.get ⟨i, h⟩ := by
  intro bs
  induction bs with
  | nil => intro mem a i h; simp at h
  | cons b bs ih =>
    intro mem a i h
    cases i with
    | zero =>
      show writeList (fun y => if y = a then b else mem y) (a + 1) bs (a + 0) =
        b
      rw [writeList_eq_of_outside _ _ _ _ (by omega)]
      simp
    | succ i =>
      show writeList (fun y => if y = a then b else mem y) (a + 1) bs
        (a + (i + 1)) = bs.get ⟨i, by simpa using h⟩
      have harith : a + (i + 1) = (a + 1) + i := by omega
      rw [harith, ih _ (a + 1) i (by simpa using h)]

theorem hexPairsDecode_bytesToHexList :
    ∀ b : List Nat, hexPairsDecode (bytesToHexList b) =
      some (b.map (fun x => x % 256)) := by
  intro b
  induction b with
  | nil => rfl
  | cons x b ih =>
    have hx : x % 256 < 256 := Nat.mod_lt _ (by decide)
    have hdivlt : x % 256 / 16 < 16 := by omega
    have hmodlt : x % 256 % 16 < 16 := Nat.mod_lt _ (by decide)
    show hexPairsDecode (hexChar (x % 256 / 16) :: hexChar (x % 256 % 16) ::
      bytesToHexList b) = _
    simp only [hexPairsDecode, hexDigitVal_hexChar _ hdivlt,
      hexDigitVal_hexChar _ hmodlt, ih]
    have : 16 * (x % 256 / 16) + x % 256 % 16 = x % 256 := by
      have := Nat.div_add_mod (x % 256) 16
      omega
    simp [this]

theorem write_bytes_bytes (b : List Nat) (address : Nat) (mem : Nat → Nat) :
    Emulator.write_bytes (.bytes b) address mem =
      writeList mem address (b.map (fun x => x % 256)) := by
  show (match hexPairsDecode (bytesToHex b).toList with
    | some bs => writeList mem address bs
    | none => mem) = _
  have : (bytesToHex b).toList = bytesToHexList b := rfl
  rw [this, hexPairsDecode_bytesToHexList]

theorem map_mod_of_lt (b : List Nat) (hb : ∀ x ∈ b, x < 256) :
    b.map (fun x => x % 256) = b := by
  calc b.map (fun x => x % 256) = b.map id := by
        apply List.map_congr_left
        intro x hx
        exact Nat.mod_eq_of_lt (hb x hx)
    _ = b := List.map_id b

/-! ## Argument-filling characterization -/

theorem fill_args_from_spec (s : MachineState) (esp : Nat) :
    ∀ (args : List FunctionArgument) (i : Nat),
      ∃ out, Emulator.fill_args_from s esp i args = .ok out ∧
        out.length = args.length ∧
        ∀ j (hj : j < args.length) (hj2 : j < out.length),
          ((args.get ⟨j, hj⟩).typed = .NUMBER →
            out.get ⟨j, hj2⟩ = { args.get ⟨j, hj⟩ with
              value := some (.num (read4 s.mem (esp + 4 + 4 * (i + j)))) }) ∧
          ((args.get ⟨j, hj⟩).typed = .BYTES →
            out.get ⟨j, hj2⟩ = { args.get ⟨j, hj⟩ with
              value := some (.str (Emulator.get_value_from_address s.mem
                (esp + 4 + 4 * (i + j)))) }) ∧
          ((args.get ⟨j, hj⟩).typed = .STRING →
            out.get ⟨j, hj2⟩ = { args.get ⟨j, hj⟩ with
              value := some (.str (Emulator.get_string_from_address s.mem
                (read4 s.mem (esp + 4 + 4 * (i + j))))) }) := by
  intro args
  induction args with
  | nil =>
    intro i
    exact ⟨[], rfl, rfl, fun j hj => by simp at hj⟩
  | cons arg rest ih =>
    intro i
    obtain ⟨restOut, hrest, hlen, hget⟩ := ih (i + 1)
    have hhead : ∃ v, Emulator.fill_args_from s esp i (arg :: rest) =
        .ok ({ arg with value := some v } :: restOut) ∧
        (arg.typed = .NUMBER → v = .num (read4 s.mem (esp + 4 + 4 * i))) ∧
        (arg.typed = .BYTES → v = .str (Emulator.get_value_from_address s.mem
          (esp + 4 + 4 * i))) ∧
        (arg.typed = .STRING → v = .str (Emulator.get_string_from_address
          s.mem (read4 s.mem (esp + 4 + 4 * i)))) := by
      cases harg : arg.typed with
      | NUMBER =>
        refine ⟨.num (read4 s.mem (esp + 4 + 4 * i)), ?_, by simp, by simp [harg], by simp [harg]⟩
        simp only [Emulator.fill_args_from, harg,
          hexToNat?_get_value_from_address, hrest]
      | BYTES =>
        refine ⟨.str (Emulator.get_value_from_address s.mem (esp + 4 + 4 * i)),
          ?_, by simp [harg], by simp, by simp [harg]⟩
        simp only [Emulator.fill_args_from, harg, hrest]
      | STRING =>
        refine ⟨.str (Emulator.get_string_from_address s.mem
          (read4 s.mem (esp + 4 + 4 * i))), ?_, by simp [harg],
          by simp [harg], by simp⟩
        simp only [Emulator.fill_args_from, harg,
          hexToNat?_get_value_from_address, hrest]
    obtain ⟨v, heq, hnum, hbytes, hstr⟩ := hhead
    refine ⟨{ arg with value := some v } :: restOut, heq, by simp [hlen], ?_⟩
    intro j hj hj2
    cases j with
    | zero =>
      refine ⟨fun ht => ?_, fun ht => ?_, fun ht => ?_⟩
      · simp only [List.get] at ht ⊢
        rw [hnum ht]
        simp
      · simp only [List.get] at ht ⊢
        rw [hbytes ht]
        simp
      · simp only [List.get] at ht ⊢
        rw [hstr ht]
        simp
    | succ j =>
      have hj' : j < rest.length := by simpa using hj
      have hj2' : j < restOut.length := by simpa using hj2
      have harith : i + 1 + j = i + (j + 1) := by omega
      have := hget j hj' hj2'
      rw [harith] at this
      simpa using this

/-! ## Bump-allocator characterization -/

theorem allocSeq_spec :
    ∀ (sizes : List Nat) (m : MemoryStack), m.cursor + sizes.sum ≤ m.size →
      ∃ addrs m2, m.allocSeq sizes = .ok (addrs, m2) ∧
        m2.address = m.address ∧ m2.size = m.size ∧
        m2.cursor = m.cursor + sizes.sum ∧
        addrs.length = sizes.length ∧
        ∀ i (hi : i < sizes.length) (hi2 : i < addrs.length),
          addrs.get ⟨i, hi2⟩ = m.address + m.cursor + (sizes.take i).sum := by
  intro sizes
  induction sizes with
  | nil =>
    intro m hm
    exact ⟨[], m, rfl, rfl, rfl, by simp, rfl, fun i hi => by simp at hi⟩
  | cons sz rest ih =>
    intro m hm
    simp only [List.sum_cons] at hm
    have hmalloc : m.malloc sz =
        .ok (m.address + m.cursor, { m with cursor := m.cursor + sz }) := by
      unfold MemoryStack.malloc
      rw [if_pos (by omega)]
    obtain ⟨addrs, m2, hseq, haddr, hsz, hcur, hlen, hget⟩ :=
      ih { m with cursor := m.cursor + sz } (by simp; omega)
    refine ⟨(m.address + m.cursor) :: addrs, m2, ?_, haddr, hsz, ?_, ?_, ?_⟩
    · simp only [MemoryStack.allocSeq, hmalloc, hseq]
    · simp only [hcur, List.sum_cons]
      omega
    · simp [hlen]
    · intro i hi hi2
      cases i with
      | zero => simp [List.get]
      | succ i =>
        have hi' : i < rest.length := by simpa using hi
        have hi2' : i < addrs.length := by simpa using hi2
        have := hget i hi' hi2'
        simp only [List.get] at this ⊢
        rw [this]
        simp only [List.take_succ_cons, List.sum_cons]
        omega

theorem allocSeq_append (l1 l2 : List Nat) :
    ∀ m : MemoryStack, m.allocSeq (l1 ++ l2) =
      match m.allocSeq l1 with
      | .ok (a1, m1) =>
        match m1.allocSeq l2 with
        | .ok (a2, m2) => .ok (a1 ++ a2, m2)
        | .error e => .error e
      | .error e => .error e := by
  induction l1 with
  | nil =>
    intro m
    simp only [List.nil_append, MemoryStack.allocSeq]
    cases m.allocSeq l2 with
    | error e => rfl
    | ok p => rfl
  | cons sz rest ih =>
    intro m
    simp only [List.cons_append, MemoryStack.allocSeq]
    cases m.malloc sz with
    | error e => rfl
    | ok p =>
      obtain ⟨a, m1⟩ := p
      simp only []
      rw [List.append_eq, ih m1]
      cases m1.allocSeq rest with
      | error e => rfl
      | ok q =>
        obtain ⟨a2, m2⟩ := q
        simp only []
        cases m2.allocSeq l2 with
        | error e => rfl
        | ok r => rfl

/-! ## Driver characterization lemmas -/

theorem execute_return_regs (s : MachineState) :
    (Emulator.execute_return s).regs =
      updateReg (updateReg s.regs "eip"
          (hexText32 (read4 s.mem ((hexToNat? (s.regs "esp")).getD 0)))) "esp"
        (hexText32 (((hexToNat? (s.regs "esp")).getD 0) + 4)) := rfl

theorem execute_return_spec (s : MachineState) (espv : Nat)
    (h : hexToNat? (s.regs "esp") = some espv) :
    (Emulator.execute_return s).regs "eip" = hexText32 (read4 s.mem espv) ∧
    (Emulator.execute_return s).regs "esp" = hexText32 (espv + 4) ∧
    (∀ r, r ≠ "eip" → r ≠ "esp" →
      (Emulator.execute_return s).regs r = s.regs r) ∧
    (Emulator.execute_return s).mem = s.mem ∧
    (Emulator.execute_return s).memStack = s.memStack ∧
    (Emulator.execute_return s).out = s.out := by
  refine ⟨?_, ?_, ?_, rfl, rfl, rfl⟩
  · rw [execute_return_regs, h]
    rw [updateReg_other _ _ _ _ (by decide), updateReg_same]
    rfl
  · rw [execute_return_regs, h]
    rw [updateReg_same]
    rfl
  · intro r hr1 hr2
    rw [execute_return_regs, h]
    rw [updateReg_other _ _ _ _ hr2, updateReg_other _ _ _ _ hr1]

theorem emulate_function_not_defined (api : Api) (fn : String)
    (s : MachineState) (h : api.contains_function fn = false) :
    Emulator.emulate_function api fn s =
      .ok ((s.print ("emulating function " ++ fn ++ ":")).print
        ("\tfunction " ++ fn ++ " not defined")) := by
  unfold Emulator.emulate_function
  rw [h]
  rfl

theorem step_intercept (eng : Engine) (rel : RelocationTable) (api : Api)
    (es : EmuState) (h1 : rel.contains_vaddr es.instr.address = true) :
    Emulator.step eng rel api es =
      match Emulator.emulate_function api
          (rel.get_function_name es.instr.address) es.machine with
      | .error e => .error e
      | .ok m =>
        .ok { es with machine :=
          if es.instr.get_operation == "call" then
            MachineState.print (MachineState.print (Emulator.execute_return m) ("\treturn to @" ++ (Emulator.execute_return m).regs "eip")) (es.instr.asm ++ ": from address @" ++ toString es.instr.address ++ " to @" ++ (Emulator.execute_return m).regs "eip")
          else
            MachineState.print (Emulator.execute_return m) ("\treturn to @" ++ (Emulator.execute_return m).regs "eip") } := by
  unfold Emulator.step
  simp only [h1, if_true]
  cases Emulator.emulate_function api
      (rel.get_function_name es.instr.address) es.machine with
  | error e => rfl
  | ok m => rfl

theorem step_normal (eng : Engine) (rel : RelocationTable) (api : Api)
    (es : EmuState) (h1 : rel.contains_vaddr es.instr.address = false) :
    Emulator.step eng rel api es =
      .ok { es with machine :=
        if es.instr.get_operation == "call" then
          (eng.aes es.machine).print (es.instr.asm ++ ": from address @" ++
            toString es.instr.address ++ " to @" ++
            (eng.aes es.machine).regs "eip")
        else eng.aes es.machine } := by
  unfold Emulator.step
  simp only [h1, Bool.false_eq_true, if_false]

theorem step_preserves (eng : Engine) (rel : RelocationTable) (api : Api)
    (es es2 : EmuState) (h : Emulator.step eng rel api es = .ok es2) :
    es2.instr = es.instr ∧ es2.lastInstr = es.lastInstr := by
  by_cases hc : rel.contains_vaddr es.instr.address = true
  · rw [step_intercept eng rel api es hc] at h
    cases hE : Emulator.emulate_function api
        (rel.get_function_name es.instr.address) es.machine with
    | error e =>
      rw [hE] at h
      exact absurd h (by simp)
    | ok m =>
      rw [hE] at h
      simp only [] at h
      cases h
      exact ⟨rfl, rfl⟩
  · rw [step_normal eng rel api es (by simpa using hc)] at h
    cases h
    exact ⟨rfl, rfl⟩

/-! ## Claim theorems -/

/-- C3: intercepting a relocation whose symbol is absent from the stub
registry emits the "function not defined" notice, and the only machine-state
change is the synthesized return — the 4-byte word at the old stack pointer
is loaded into `eip` and `esp` advances by 4, while every other register,
all of memory and the Memory Stack are untouched and no argument is read. -/
theorem claim_C3_unknown_symbol (eng : Engine) (rel : RelocationTable)
    (api : Api) (es : EmuState) (fn : String) (espv : Nat)
    (hfn : rel.get_function_name es.instr.address = fn)
    (hcont : rel.contains_vaddr es.instr.address = true)
    (hapi : api.contains_function fn = false)
    (hesp : hexToNat? (es.machine.regs "esp") = some espv) :
    ∃ es2, Emulator.step eng rel api es = .ok es2 ∧
      es2.instr = es.instr ∧
      es2.lastInstr = es.lastInstr ∧
      es2.machine.mem = es.machine.mem ∧
      es2.machine.memStack = es.machine.memStack ∧
      es2.machine.regs "eip" = hexText32 (read4 es.machine.mem espv) ∧
      es2.machine.regs "esp" = hexText32 (espv + 4) ∧
      (∀ r, r ≠ "eip" → r ≠ "esp" → es2.machine.regs r = es.machine.regs r) ∧
      es2.machine.out = es.machine.out ++
        ["emulating function " ++ fn ++ ":",
         "\tfunction " ++ fn ++ " not defined",
         "\treturn to @" ++ hexText32 (read4 es.machine.mem espv)] ++
        (if es.instr.get_operation == "call" then [es.instr.asm ++ ": from address @" ++ toString es.instr.address ++ " to @" ++ hexText32 (read4 es.machine.mem espv)] else []) := by
  have hesp0 : hexToNat? (((es.machine.print ("emulating function " ++ fn ++ ":")).print ("\tfunction " ++ fn ++ " not defined")).regs "esp") = some espv := hesp
  obtain ⟨heip, hespr, hother, hmem, hms, hout⟩ :=
    execute_return_spec _ espv hesp0
  simp only [MachineState.print_mem, MachineState.print_regs,
    MachineState.print_memStack, MachineState.print_out]
    at heip hespr hother hmem hms hout
  rw [step_intercept eng rel api es hcont, hfn,
    emulate_function_not_defined api fn es.machine hapi]
  refine ⟨_, rfl, rfl, rfl, ?_, ?_, ?_, ?_, ?_, ?_⟩
  · split <;>
      (simp only [MachineState.print_mem]; exact hmem)
  · split <;>
      (simp only [MachineState.print_memStack]; exact hms)
  · split <;>
      (simp only [MachineState.print_regs]; rw [heip])
  · split <;>
      (simp only [MachineState.print_regs]; exact hespr)
  · intro r h1 h2
    split <;>
      (simp only [MachineState.print_regs]; exact hother r h1 h2)
  · split
    · simp only [MachineState.print_out, MachineState.print_regs]
      rw [heip, hout]
      simp [List.append_assoc]
    · simp only [MachineState.print_out, MachineState.print_regs]
      rw [heip, hout]
      simp [List.append_assoc]

/-- C4: after an interception episode that completes (with or without a
stub), the driver's step is the synthesized return applied to the
post-emulation machine state: `eip` receives the 4-byte word at the top of
the simulated stack, `esp` advances by 4, and memory, the Memory Stack and
all other registers are exactly those of the post-emulation state. -/
theorem claim_C4_synthesized_return (eng : Engine) (rel : RelocationTable)
    (api : Api) (es : EmuState) (m : MachineState) (espv : Nat)
    (hcont : rel.contains_vaddr es.instr.address = true)
    (hE : Emulator.emulate_function api
      (rel.get_function_name es.instr.address) es.machine = .ok m)
    (hesp : hexToNat? (m.regs "esp") = some espv) :
    ∃ es2, Emulator.step eng rel api es = .ok es2 ∧
      es2.machine.regs "eip" = hexText32 (read4 m.mem espv) ∧
      es2.machine.regs "esp" = hexText32 (espv + 4) ∧
      es2.machine.mem = m.mem ∧
      es2.machine.memStack = m.memStack ∧
      (∀ r, r ≠ "eip" → r ≠ "esp" → es2.machine.regs r = m.regs r) := by
  obtain ⟨heip, hespr, hother, hmem, hms, hout⟩ :=
    execute_return_spec m espv hesp
  rw [step_intercept eng rel api es hcont, hE]
  refine ⟨_, rfl, ?_, ?_, ?_, ?_, ?_⟩
  · split <;>
      (simp only [MachineState.print_regs]; exact heip)
  · split <;>
      (simp only [MachineState.print_regs]; exact hespr)
  · split <;>
      (simp only [MachineState.print_mem]; exact hmem)
  · split <;>
      (simp only [MachineState.print_memStack]; exact hms)
  · intro r h1 h2
    split <;>
      (simp only [MachineState.print_regs]; exact hother r h1 h2)

/-- C6: the run loop exits with a final state exactly at the recorded last
instruction's address — when the current address already equals it the loop
returns the state unchanged without stepping, any state the loop returns
satisfies the sentinel equation (and the recorded last instruction is the
one the run started with), and when the addresses differ the loop performs
one step and a view refresh before continuing. -/
theorem claim_C6_run_termination (eng : Engine) (rel : RelocationTable)
    (api : Api) :
    (∀ fuel es, es.instr.address = es.lastInstr.address →
      Emulator.run eng rel api (fuel + 1) es = some es) ∧
    (∀ fuel es es2, Emulator.run eng rel api fuel es = some es2 →
      es2.instr.address = es2.lastInstr.address ∧
      es2.lastInstr = es.lastInstr) ∧
    (∀ fuel es, es.instr.address ≠ es.lastInstr.address →
      Emulator.run eng rel api (fuel + 1) es =
        match Emulator.step eng rel api es with
        | .error _ => none
        | .ok es3 => Emulator.run eng rel api fuel
            { es3 with instr := Emulator.get_instruction eng es3.machine }) := by
  refine ⟨?_, ?_, ?_⟩
  · intro fuel es h
    unfold Emulator.run
    rw [if_pos h]
  · intro fuel
    induction fuel with
    | zero =>
      intro es es2 h
      simp [Emulator.run] at h
    | succ fuel ih =>
      intro es es2 h
      unfold Emulator.run at h
      by_cases he : es.instr.address = es.lastInstr.address
      · rw [if_pos he] at h
        cases h
        exact ⟨he, rfl⟩
      · rw [if_neg he] at h
        cases hs : Emulator.step eng rel api es with
        | error e =>
          rw [hs] at h
          simp at h
        | ok es3 =>
          rw [hs] at h
          obtain ⟨hterm, hlast⟩ := ih _ es2 h
          refine ⟨hterm, ?_⟩
          rw [hlast]
          exact (step_preserves eng rel api es es3 hs).2
  · intro fuel es h
    simp only [Emulator.run]
    rw [if_neg h]

/-- Witness for C6 at a concrete state already sitting on the sentinel
address: one application of the loop returns it unchanged. -/
theorem claim_C6_witness :
    ((9008 : Nat) = 9008) ∧
    Emulator.run engA relA apiNone 3
        ⟨machineA, ⟨9008, "ret", "ret"⟩, ⟨9008, "ret", "ret"⟩⟩ =
      some ⟨machineA, ⟨9008, "ret", "ret"⟩, ⟨9008, "ret", "ret"⟩⟩ :=
  ⟨rfl, (claim_C6_run_termination engA relA apiNone).1 2 _ rfl⟩

/-- C2 fails as stated: a NUMBER result with `to_reference` set passes the
numeric value to `malloc` as the requested size.  On a fresh 16-byte Memory
Stack, applying value 8 advances the cursor by 8 — not by a fixed word size
of 4 — and no byte of the allocated block is written (memory is unchanged),
while the value is replaced by the block's address `1048576`. -/
theorem claim_C2_counterexample :
    (Emulator.apply_result machineA ⟨"eax", ValueType.NUMBER, Value.num 8, true⟩).toOption.map
        (fun t => t.memStack.cursor) = some 8 ∧
    machineA.memStack.cursor + 4 ≠ 8 ∧
    (Emulator.apply_result machineA ⟨"eax", ValueType.NUMBER, Value.num 8, true⟩).toOption.map
        (fun t => (t.mem 1048576, t.mem 1048577, t.mem 1048578, t.mem 1048579)) =
      some ((0 : Nat), (0 : Nat), (0 : Nat), (0 : Nat)) ∧
    (Emulator.apply_result machineA ⟨"eax", ValueType.NUMBER, Value.num 8, true⟩).toOption.map
        (fun t => t.regs "eax") = some "1048576" :=
  ⟨by decide, by decide, by decide, by decide⟩

/-- C2 amended: applying a NUMBER result with `to_reference` set allocates a
block whose size equals the numeric value itself (not a fixed word size),
does not write the value into the block (memory is unchanged when the target
is a register), and replaces the result's value with the block's address
before writing it to the target register. -/
theorem claim_C2_amended (s : MachineState) (res : FunctionResult) (n : Nat)
    (ht : res.typed = .NUMBER) (href : res.to_reference = true)
    (hv : res.value = .num n)
    (hreg : is_address res.target = false)
    (hcap : s.memStack.cursor + n ≤ s.memStack.size) :
    ∃ s2, Emulator.apply_result s res = .ok s2 ∧
      s2.memStack.cursor = s.memStack.cursor + n ∧
      s2.memStack.address = s.memStack.address ∧
      s2.memStack.size = s.memStack.size ∧
      s2.mem = s.mem ∧
      s2.regs res.target = toString (s.memStack.address + s.memStack.cursor) := by
  unfold Emulator.apply_result
  rw [href, ht, hv]
  simp only [if_true]
  unfold MemoryStack.malloc
  rw [if_pos hcap]
  simp only [hreg, Bool.false_eq_true, if_false]
  refine ⟨_, rfl, rfl, rfl, rfl, rfl, ?_⟩
  show updateReg _ res.target _ res.target = _
  rw [updateReg_same]
  rfl

/-- Witness for the amended C2 on a fresh 16-byte Memory Stack and the
result value 8 targeting register `eax`. -/
theorem claim_C2_witness :
    is_address "eax" = false ∧
    machineA.memStack.cursor + 8 ≤ machineA.memStack.size ∧
    ∃ s2, Emulator.apply_result machineA ⟨"eax", ValueType.NUMBER, Value.num 8, true⟩ = .ok s2 ∧
      s2.memStack.cursor = machineA.memStack.cursor + 8 ∧
      s2.memStack.address = machineA.memStack.address ∧
      s2.memStack.size = machineA.memStack.size ∧
      s2.mem = machineA.mem ∧
      s2.regs "eax" = toString (machineA.memStack.address + machineA.memStack.cursor) :=
  ⟨by decide, by decide,
    claim_C2_amended machineA ⟨"eax", ValueType.NUMBER, Value.num 8, true⟩ 8
      rfl rfl rfl (by decide) (by decide)⟩

/-- C5: applying a BYTES result with `to_reference` set whose value holds
`n` bytes allocates exactly `n` bytes from the Memory Stack (the cursor
advances by `n` from the block's address `base + cursor`), writes those
bytes into the block, leaves all other memory unchanged, and writes the
allocated address — not the bytes — into the target register. -/
theorem claim_C5_bytes_to_reference (s : MachineState) (res : FunctionResult)
    (b : List Nat)
    (ht : res.typed = .BYTES) (href : res.to_reference = true)
    (hv : res.value = .bytes b)
    (hreg : is_address res.target = false)
    (hb : ∀ x ∈ b, x < 256)
    (hcap : s.memStack.cursor + b.length ≤ s.memStack.size) :
    ∃ s2, Emulator.apply_result s res = .ok s2 ∧
      s2.memStack.cursor = s.memStack.cursor + b.length ∧
      s2.memStack.address = s.memStack.address ∧
      (∀ i (hi : i < b.length),
        s2.mem (s.memStack.address + s.memStack.cursor + i) = b.get ⟨i, hi⟩) ∧
      (∀ a, a < s.memStack.address + s.memStack.cursor ∨
          s.memStack.address + s.memStack.cursor + b.length ≤ a →
        s2.mem a = s.mem a) ∧
      s2.regs res.target = toString (s.memStack.address + s.memStack.cursor) := by
  unfold Emulator.apply_result
  rw [href, ht, hv]
  simp only [if_true, Value.size?]
  unfold MemoryStack.malloc
  rw [if_pos hcap]
  simp only [hreg, Bool.false_eq_true, if_false]
  rw [write_bytes_bytes, map_mod_of_lt b hb]
  refine ⟨_, rfl, rfl, rfl, ?_, ?_, ?_⟩
  · intro i hi
    exact writeList_get b s.mem _ i hi
  · intro a ha
    exact writeList_eq_of_outside b s.mem _ a ha
  · show updateReg _ res.target _ res.target = _
    rw [updateReg_same]
    rfl

/-- Witness for C5: five bytes allocated at the base of the fresh Memory
Stack and the address written to `eax`. -/
theorem claim_C5_witness :
    is_address "eax" = false ∧
    (∀ x ∈ [10, 11, 12, 13, 14], x < 256) ∧
    machineA.memStack.cursor + ([10, 11, 12, 13, 14] : List Nat).length ≤ machineA.memStack.size ∧
    ∃ s2, Emulator.apply_result machineA ⟨"eax", ValueType.BYTES, Value.bytes [10, 11, 12, 13, 14], true⟩ = .ok s2 ∧
      s2.memStack.cursor = machineA.memStack.cursor + ([10, 11, 12, 13, 14] : List Nat).length ∧
      s2.memStack.address = machineA.memStack.address ∧
      (∀ i (hi : i < ([10, 11, 12, 13, 14] : List Nat).length),
        s2.mem (machineA.memStack.address + machineA.memStack.cursor + i) =
          ([10, 11, 12, 13, 14] : List Nat).get ⟨i, hi⟩) ∧
      (∀ a, a < machineA.memStack.address + machineA.memStack.cursor ∨
          machineA.memStack.address + machineA.memStack.cursor + ([10, 11, 12, 13, 14] : List Nat).length ≤ a →
        s2.mem a = machineA.mem a) ∧
      s2.regs "eax" = toString (machineA.memStack.address + machineA.memStack.cursor) :=
  ⟨by decide, by decide, by decide,
    claim_C5_bytes_to_reference machineA
      ⟨"eax", ValueType.BYTES, Value.bytes [10, 11, 12, 13, 14], true⟩
      [10, 11, 12, 13, 14] rfl rfl rfl (by decide) (by decide) (by decide)⟩

/-- C10: a `to_reference` result whose type is neither NUMBER nor BYTES
(the STRING case) falls through the reference handling — no Memory Stack
allocation happens, the original unreplaced value is written to the target,
and the trace still reports the effective type as "address". -/
theorem claim_C10_fallthrough (s : MachineState) (res : FunctionResult)
    (ht : res.typed = .STRING) (href : res.to_reference = true) :
    ∃ s2, Emulator.apply_result s res = .ok s2 ∧
      s2.memStack = s.memStack ∧
      s2.out = s.out ++ ["\t\t" ++ res.target ++ " = " ++ res.value.pyShow ++ " (" ++ "address" ++ ")"] ∧
      (is_address res.target = false →
        s2.regs res.target = Emulator.set_register_text res.value) ∧
      (is_address res.target = true →
        s2.mem = match r2NumParse? res.target with
          | some a => Emulator.write_bytes res.value a s.mem
          | none => s.mem) := by
  unfold Emulator.apply_result
  rw [href, ht]
  simp only [if_true]
  by_cases hadr : is_address res.target = true
  · rw [if_pos hadr]
    cases hp : r2NumParse? res.target with
    | some a =>
      refine ⟨_, rfl, rfl, rfl, ?_, ?_⟩
      · intro habs
        rw [habs] at hadr
        exact absurd hadr (by decide)
      · intro _
        rfl
    | none =>
      refine ⟨_, rfl, rfl, rfl, ?_, ?_⟩
      · intro habs
        rw [habs] at hadr
        exact absurd hadr (by decide)
      · intro _
        rfl
  · rw [if_neg hadr]
    refine ⟨_, rfl, rfl, rfl, ?_, ?_⟩
    · intro _
      show updateReg _ res.target _ res.target = _
      rw [updateReg_same]
    · intro habs
      exact absurd habs hadr

/-- Witness for C10 with a STRING value "hi" targeted at register `eax`. -/
theorem claim_C10_witness :
    ∃ s2, Emulator.apply_result machineA ⟨"eax", ValueType.STRING, Value.str "hi", true⟩ = .ok s2 ∧
      s2.memStack = machineA.memStack ∧
      s2.out = machineA.out ++ ["\t\t" ++ "eax" ++ " = " ++ (Value.str "hi").pyShow ++ " (" ++ "address" ++ ")"] ∧
      (is_address "eax" = false →
        s2.regs "eax" = Emulator.set_register_text (Value.str "hi")) ∧
      (is_address "eax" = true →
        s2.mem = match r2NumParse? "eax" with
          | some a => Emulator.write_bytes (Value.str "hi") a machineA.mem
          | none => machineA.mem) :=
  claim_C10_fallthrough machineA ⟨"eax", ValueType.STRING, Value.str "hi", true⟩ rfl rfl

/-- C8 fails as stated: the driver writes a numeric result value to a
register as decimal text, not hexadecimal — applying the value 255 to `eax`
stores the text "255", which read as hexadecimal denotes 597, not 255. -/
theorem claim_C8_counterexample :
    (Emulator.apply_result machineA ⟨"eax", ValueType.NUMBER, Value.num 255, false⟩).toOption.map
        (fun t => t.regs "eax") = some "255" ∧
    hexToNat? "255" = some 597 ∧
    ¬ hexToNat? "255" = some 255 :=
  ⟨by decide, by decide, by decide⟩

/-- C8 amended: when a result's target denotes a register name, the driver
stores the value's formatted text in that register — numeric values as
decimal text, byte values as their hexadecimal encoding, string values
verbatim. -/
theorem claim_C8_amended (s : MachineState) (res : FunctionResult)
    (hreg : is_address res.target = false) (href : res.to_reference = false) :
    ∃ s2, Emulator.apply_result s res = .ok s2 ∧
      s2.regs res.target = Emulator.set_register_text res.value ∧
      (∀ n, Emulator.set_register_text (.num n) = toString n) ∧
      (∀ bl, Emulator.set_register_text (.bytes bl) = bytesToHex bl) ∧
      (∀ t, Emulator.set_register_text (.str t) = t) := by
  unfold Emulator.apply_result
  rw [href]
  simp only [Bool.false_eq_true, if_false]
  rw [if_neg (by rw [hreg]; exact fun habs => absurd habs (by decide))]
  refine ⟨_, rfl, ?_, fun n => rfl, fun bl => rfl, fun t => rfl⟩
  show updateReg _ res.target _ res.target = _
  rw [updateReg_same]

/-- Witness for the amended C8: a string result value written verbatim to
register `eax`. -/
theorem claim_C8_witness :
    is_address "eax" = false ∧
    ∃ s2, Emulator.apply_result machineA ⟨"eax", ValueType.STRING, Value.str "hi", false⟩ = .ok s2 ∧
      s2.regs "eax" = Emulator.set_register_text (Value.str "hi") ∧
      (∀ n, Emulator.set_register_text (.num n) = toString n) ∧
      (∀ bl, Emulator.set_register_text (.bytes bl) = bytesToHex bl) ∧
      (∀ t, Emulator.set_register_text (.str t) = t) :=
  ⟨by decide,
    claim_C8_amended machineA ⟨"eax", ValueType.STRING, Value.str "hi", false⟩
      (by decide) rfl⟩

/-- C1: for an intercepted call, declared argument `i` is read from the
stack slot at `esp + 4 + 4*i` (with `esp` the parsed stack-pointer value
before the call), and a NUMBER-typed argument receives the integer obtained
by parsing that slot's hexadecimal word text, before any stub is invoked. -/
theorem claim_C1_cdecl_number_args (s : MachineState)
    (args : List FunctionArgument) (espv j : Nat) (hj : j < args.length)
    (hesp : hexToNat? (s.regs "esp") = some espv)
    (ht : (args.get ⟨j, hj⟩).typed = .NUMBER) :
    ∃ out, Emulator.fill_function_arguments s args = .ok out ∧
      out.length = args.length ∧
      ∃ hj2 : j < out.length, ∃ nv,
        hexToNat? (Emulator.get_value_from_address s.mem (espv + 4 + 4 * j)) = some nv ∧
        out.get ⟨j, hj2⟩ = { args.get ⟨j, hj⟩ with value := some (.num nv) } := by
  obtain ⟨out, hfill, hlen, hget⟩ := fill_args_from_spec s espv args 0
  refine ⟨out, ?_, hlen, ?_⟩
  · unfold Emulator.fill_function_arguments
    rw [hesp]
    exact hfill
  · refine ⟨by rw [hlen]; exact hj, read4 s.mem (espv + 4 + 4 * j), ?_, ?_⟩
    · rw [hexToNat?_get_value_from_address]
    · have := (hget j hj (by rw [hlen]; exact hj)).1 ht
      simpa using this

/-- Witness for C1: one NUMBER argument read from the slot `0x1004` of the
concrete machine and converted from its hex text. -/
theorem claim_C1_witness :
    hexToNat? (machineA.regs "esp") = some 4096 ∧
    ∃ out, Emulator.fill_function_arguments machineA [⟨"a", ValueType.NUMBER, none⟩] = .ok out ∧
      out.length = ([⟨"a", ValueType.NUMBER, none⟩] : List FunctionArgument).length ∧
      ∃ hj2 : 0 < out.length, ∃ nv,
        hexToNat? (Emulator.get_value_from_address machineA.mem (4096 + 4 + 4 * 0)) = some nv ∧
        out.get ⟨0, hj2⟩ = { name := "a", typed := ValueType.NUMBER, value := some (.num nv) } :=
  ⟨by decide,
    claim_C1_cdecl_number_args machineA [⟨"a", ValueType.NUMBER, none⟩] 4096 0
      (by decide) (by decide) rfl⟩

/-- C7 fails as stated: a BYTES-typed argument is read from the stack like
any other — after filling, its value is exactly the raw hexadecimal word
text of its stack slot, so it does depend on stack contents (two machines
differing only there yield different filled values). -/
theorem claim_C7_counterexample :
    (Emulator.fill_function_arguments machineA [⟨"buf", ValueType.BYTES, none⟩]).toOption =
      some [⟨"buf", ValueType.BYTES, some (.str "0x04030201")⟩] ∧
    Emulator.get_value_from_address machineA.mem (4096 + 4) = "0x04030201" ∧
    (Emulator.fill_function_arguments machineB [⟨"buf", ValueType.BYTES, none⟩]).toOption =
      some [⟨"buf", ValueType.BYTES, some (.str "0x00000042")⟩] :=
  ⟨by decide, by decide, by decide⟩

/-- C7 amended: BYTES-typed arguments are read from their stack slot like
every other argument, but the raw hexadecimal word text is kept as the
value with no type coercion applied. -/
theorem claim_C7_amended (s : MachineState)
    (args : List FunctionArgument) (espv j : Nat) (hj : j < args.length)
    (hesp : hexToNat? (s.regs "esp") = some espv)
    (ht : (args.get ⟨j, hj⟩).typed = .BYTES) :
    ∃ out, Emulator.fill_function_arguments s args = .ok out ∧
      out.length = args.length ∧
      ∃ hj2 : j < out.length,
        out.get ⟨j, hj2⟩ = { args.get ⟨j, hj⟩ with
          value := some (.str (Emulator.get_value_from_address s.mem (espv + 4 + 4 * j))) } := by
  obtain ⟨out, hfill, hlen, hget⟩ := fill_args_from_spec s espv args 0
  refine ⟨out, ?_, hlen, ⟨by rw [hlen]; exact hj, ?_⟩⟩
  · unfold Emulator.fill_function_arguments
    rw [hesp]
    exact hfill
  · have := (hget j hj (by rw [hlen]; exact hj)).2.1 ht
    simpa using this

/-- Witness for the amended C7: the BYTES argument keeps the raw word text
of slot `0x1004`. -/
theorem claim_C7_witness :
    hexToNat? (machineA.regs "esp") = some 4096 ∧
    ∃ out, Emulator.fill_function_arguments machineA [⟨"buf", ValueType.BYTES, none⟩] = .ok out ∧
      out.length = ([⟨"buf", ValueType.BYTES, none⟩] : List FunctionArgument).length ∧
      ∃ hj2 : 0 < out.length,
        out.get ⟨0, hj2⟩ = ⟨"buf", ValueType.BYTES, some (.str (Emulator.get_value_from_address machineA.mem (4096 + 4 + 4 * 0)))⟩ :=
  ⟨by decide,
    claim_C7_amended machineA [⟨"buf", ValueType.BYTES, none⟩] 4096 0
      (by decide) (by decide) rfl⟩

/-- Witness for C3: intercepting `foo` at `0x2000` with an empty registry
on the concrete machine pops the recorded return address into `eip` and
advances `esp` by 4. -/
theorem claim_C3_witness :
    relA.get_function_name esA.instr.address = "foo" ∧
    relA.contains_vaddr esA.instr.address = true ∧
    apiNone.contains_function "foo" = false ∧
    hexToNat? (esA.machine.regs "esp") = some 4096 ∧
    ∃ es2, Emulator.step engA relA apiNone esA = .ok es2 ∧
      es2.machine.regs "eip" = hexText32 (read4 esA.machine.mem 4096) ∧
      es2.machine.regs "esp" = hexText32 (4096 + 4) :=
  ⟨by decide, by decide, by decide, by decide, by
    obtain ⟨es2, hstep, _, _, _, _, heip, hesp, _, _⟩ :=
      claim_C3_unknown_symbol engA relA apiNone esA "foo" 4096
        (by decide) (by decide) (by decide) (by decide)
    exact ⟨es2, hstep, heip, hesp⟩⟩

/-- Witness for C4: the same concrete interception, seen through the
post-emulation state, still ends in the synthesized return. -/
theorem claim_C4_witness :
    relA.contains_vaddr esA.instr.address = true ∧
    ∃ es2, Emulator.step engA relA apiNone esA = .ok es2 ∧
      es2.machine.regs "esp" = hexText32 (4096 + 4) :=
  ⟨by decide, by
    obtain ⟨es2, hstep, _, hesp, _, _, _⟩ :=
      claim_C4_synthesized_return engA relA apiNone esA
        ((machineA.print ("emulating function " ++ "foo" ++ ":")).print ("\tfunction " ++ "foo" ++ " not defined"))
        4096 (by decide)
        (emulate_function_not_defined apiNone "foo" machineA rfl)
        (by decide)
    exact ⟨es2, hstep, hesp⟩⟩

/-! ## Prefix-sum helpers for the allocator claim -/

theorem sum_take_mono (l : List Nat) :
    ∀ i j, i ≤ j → (l.take i).sum ≤ (l.take j).sum := by
  induction l with
  | nil =>
    intro i j _
    simp
  | cons x xs ih =>
    intro i j hij
    cases i with
    | zero => simp
    | succ i =>
      cases j with
      | zero => omega
      | succ j =>
        simp only [List.take_succ_cons, List.sum_cons]
        have := ih i j (by omega)
        omega

theorem sum_take_le (l : List Nat) (i : Nat) : (l.take i).sum ≤ l.sum := by
  conv_rhs => rw [← List.take_append_drop i l]
  rw [List.sum_append]
  omega

theorem sum_take_succ_nat (l : List Nat) (i : Nat) (h : i < l.length) :
    (l.take (i + 1)).sum = (l.take i).sum + l.get ⟨i, h⟩ := by
  simpa using List.sum_take_succ l i h

/-- C9 fails as stated: with two zero-sized allocations (sum 0, within a
capacity of 4) the bump allocator returns the same address twice, so the
returned addresses are not strictly increasing. -/
theorem claim_C9_counterexample :
    (MemoryStack.allocSeq ⟨1048576, 4, 0⟩ [0, 0]).toOption =
      some ([1048576, 1048576], ⟨1048576, 4, 0⟩) ∧
    ([0, 0] : List Nat).sum ≤ 4 ∧
    ¬ (1048576 : Nat) < 1048576 :=
  ⟨by decide, by decide, by decide⟩

/-- C9 amended: for sizes summing within capacity, allocation succeeds; the
returned ranges are ordered without overlap (each block ends at or before
the next block's address) and lie inside the region, the addresses are
strictly increasing whenever all sizes are positive, and an extra call
whose size exceeds the remaining capacity fails with OutOfMemory. -/
theorem claim_C9_amended (B C : Nat) (sizes : List Nat)
    (hsum : sizes.sum ≤ C) :
    ∃ addrs m2, MemoryStack.allocSeq ⟨B, C, 0⟩ sizes = .ok (addrs, m2) ∧
      addrs.length = sizes.length ∧
      (∀ i j (hi : i < addrs.length) (hj : j < addrs.length)
        (hi2 : i < sizes.length), i < j →
        addrs.get ⟨i, hi⟩ + sizes.get ⟨i, hi2⟩ ≤ addrs.get ⟨j, hj⟩ ∧
        ((∀ x ∈ sizes, 0 < x) → addrs.get ⟨i, hi⟩ < addrs.get ⟨j, hj⟩)) ∧
      (∀ i (hi : i < addrs.length) (hi2 : i < sizes.length),
        B ≤ addrs.get ⟨i, hi⟩ ∧
        addrs.get ⟨i, hi⟩ + sizes.get ⟨i, hi2⟩ ≤ B + C) ∧
      (∀ t, C < sizes.sum + t →
        MemoryStack.allocSeq ⟨B, C, 0⟩ (sizes ++ [t]) = .error .outOfMemory) := by
  obtain ⟨addrs, m2, hseq, haddr, hsz, hcur, hlen, hget⟩ :=
    allocSeq_spec sizes ⟨B, C, 0⟩ (by show 0 + sizes.sum ≤ C; omega)
  refine ⟨addrs, m2, hseq, hlen, ?_, ?_, ?_⟩
  · intro i j hi hj hi2 hij
    have hj2 : j < sizes.length := by rw [← hlen]; exact hj
    have hgi := hget i hi2 hi
    have hgj := hget j hj2 hj
    have h1 := sum_take_succ_nat sizes i hi2
    have h2 := sum_take_mono sizes (i + 1) j (by omega)
    constructor
    · rw [hgi, hgj]
      show B + 0 + (sizes.take i).sum + sizes.get ⟨i, hi2⟩ ≤
        B + 0 + (sizes.take j).sum
      omega
    · intro hpos
      have hsi : 0 < sizes.get ⟨i, hi2⟩ :=
        hpos (sizes.get ⟨i, hi2⟩) (List.get_mem sizes i hi2)
      rw [hgi, hgj]
      show B + 0 + (sizes.take i).sum < B + 0 + (sizes.take j).sum
      omega
  · intro i hi hi2
    have hgi := hget i hi2 hi
    have h1 := sum_take_succ_nat sizes i hi2
    have h2 := sum_take_le sizes (i + 1)
    rw [hgi]
    constructor
    · show B ≤ B + 0 + (sizes.take i).sum
      omega
    · show B + 0 + (sizes.take i).sum + sizes.get ⟨i, hi2⟩ ≤ B + C
      omega
  · intro t hC
    have hcond : ¬ (m2.cursor + t ≤ m2.size) := by
      rw [hcur, hsz]
      show ¬ ((0 : Nat) + sizes.sum + t ≤ C)
      omega
    have hm : m2.malloc t = .error .outOfMemory := by
      unfold MemoryStack.malloc
      rw [if_neg hcond]
    have hseq2 : m2.allocSeq [t] = .error .outOfMemory := by
      unfold MemoryStack.allocSeq
      rw [hm]
    rw [allocSeq_append]
    simp only [hseq, hseq2]

/-- Witness for the amended C9 on sizes 3, 5, 8 in a 16-byte region: the
allocation sequence succeeds with non-overlapping in-bounds blocks, and a
further 1-byte request fails with OutOfMemory. -/
theorem claim_C9_witness :
    ([3, 5, 8] : List Nat).sum ≤ 16 ∧
    ∃ addrs m2, MemoryStack.allocSeq ⟨1048576, 16, 0⟩ [3, 5, 8] = .ok (addrs, m2) ∧
      addrs.length = ([3, 5, 8] : List Nat).length ∧
      (∀ i j (hi : i < addrs.length) (hj : j < addrs.length)
        (hi2 : i < ([3, 5, 8] : List Nat).length), i < j →
        addrs.get ⟨i, hi⟩ + ([3, 5, 8] : List Nat).get ⟨i, hi2⟩ ≤ addrs.get ⟨j, hj⟩ ∧
        ((∀ x ∈ ([3, 5, 8] : List Nat), 0 < x) → addrs.get ⟨i, hi⟩ < addrs.get ⟨j, hj⟩)) ∧
      (∀ i (hi : i < addrs.length) (hi2 : i < ([3, 5, 8] : List Nat).length),
        1048576 ≤ addrs.get ⟨i, hi⟩ ∧
        addrs.get ⟨i, hi⟩ + ([3, 5, 8] : List Nat).get ⟨i, hi2⟩ ≤ 1048576 + 16) ∧
      (∀ t, 16 < ([3, 5, 8] : List Nat).sum + t →
        MemoryStack.allocSeq ⟨1048576, 16, 0⟩ ([3, 5, 8] ++ [t]) = .error .outOfMemory) :=
  ⟨by decide, claim_C9_amended 1048576 16 [3, 5, 8] (by decide)⟩
